import Mathlib

/-!
# Tauque build orchestrator (`src/build.js`)

A shallow embedding of the build orchestrator: the expansion of the bundle
configurations into bundler invocations (`buildBundles`, `buildSingle`) and the
asynchronous build pass (`runBuild`, the default export), followed by the
properties proved about them.

Conventions of the embedding.

* JavaScript strings are Lean strings.  The only string operations used by the
  source are concatenation, emptiness, `endsWith` with an ASCII argument and
  `path.join`.
* A JavaScript object is the sequence of its property definitions, a later
  definition of a key superseding an earlier one.  An object literal that ends
  in a spread, `{ a: x, ...o }`, is then the concatenation of the two sequences.
* The event loop is single threaded.  A build pass is the state reached after
  the synchronous part of `runBuild`, advanced by one step for every bundler
  promise that settles, in the order in which they settle.
-/

namespace Tauque

/-! ## JavaScript values and objects -/

/-- A JavaScript value as handled by the orchestrator: option values, bundler
results and rejection reasons. -/
inductive JSValue where
  | undefined
  | null
  | bool (b : Bool)
  | num (n : Int)
  | str (s : String)
  | arr (items : List JSValue)
  | obj (props : List (String × JSValue))

/-- An object: its property definitions in the order they were made. -/
abbrev JSObject := List (String × JSValue)

/-- Property read on the object itself: the last definition of `key`, if any. -/
def getProp : JSObject → String → Option JSValue
  | [], _ => none
  | (k, v) :: rest, key =>
    match getProp rest key with
    | some w => some w
    | none => if k = key then some v else none

/-- The object has `key` among its own properties (`key in o`). -/
def hasProp (o : JSObject) (key : String) : Bool :=
  (getProp o key).isSome

/-! ## `path.join` (Node, POSIX flavour) -/

/-- Cut a path at every `/`. -/
def splitSlash : List Char → List (List Char)
  | [] => [[]]
  | c :: cs =>
    if c = '/' then [] :: splitSlash cs
    else
      match splitSlash cs with
      | [] => [[c]]
      | seg :: segs => (c :: seg) :: segs

/-- The `normalizeString` of Node, segment by segment: empty and `.` segments are
dropped, `..` removes the last kept segment unless there is none or it is `..`
itself, in which case `..` is kept when `allowAboveRoot`. -/
def normalizeSegs (allowAboveRoot : Bool) : List (List Char) → List (List Char) → List (List Char)
  | res, [] => res
  | res, seg :: segs =>
    if seg = [] ∨ seg = ['.'] then normalizeSegs allowAboveRoot res segs
    else if seg = ['.', '.'] then
      match res.getLast? with
      | some last =>
        if last ≠ ['.', '.'] then normalizeSegs allowAboveRoot res.dropLast segs
        else if allowAboveRoot then normalizeSegs allowAboveRoot (res ++ [seg]) segs
        else normalizeSegs allowAboveRoot res segs
      | none =>
        if allowAboveRoot then normalizeSegs allowAboveRoot (res ++ [seg]) segs
        else normalizeSegs allowAboveRoot res segs
    else normalizeSegs allowAboveRoot (res ++ [seg]) segs

/-- The `path.posix.normalize` of Node. -/
def pathNormalize (path : List Char) : List Char :=
  if path = [] then ['.']
  else
    let isAbsolute := path.head? = some '/'
    let trailingSeparator := path.getLast? = some '/'
    let body := List.intercalate ['/'] (normalizeSegs (!isAbsolute) [] (splitSlash path))
    if body = [] then
      if isAbsolute then ['/'] else if trailingSeparator then ['.', '/'] else ['.']
    else
      let body := if trailingSeparator then body ++ ['/'] else body
      if isAbsolute then '/' :: body else body

/-- The `path.posix.join` of Node, for two arguments: the non-empty arguments are
glued with `/` and the result is normalised. -/
def pathJoin (a b : String) : String :=
  let parts := [a.data, b.data].filter (fun arg => arg ≠ [])
  match parts with
  | [] => "."
  | _ => String.mk (pathNormalize (List.intercalate ['/'] parts))

/-! ## Data model -/

/-- The `target` setting: a string or a list of strings, either possibly empty. -/
inductive Target where
  | str (s : String)
  | list (items : List String)

/-- The `length` property of a `target`. -/
def Target.length : Target → Nat
  | .str s => s.length
  | .list items => items.length

/-- A `target` as the value handed to the bundler. -/
def Target.toJS : Target → JSValue
  | .str s => .str s
  | .list items => .arr (items.map JSValue.str)

/-- One bundle configuration, as read by `buildBundles` and `buildSingle`.
`source` and `types` may be missing; a missing `esbuild` mapping spreads
nothing, as the empty mapping does. -/
structure BundleConfig where
  name : String
  source : Option String
  outputDir : String
  platform : JSValue
  globalName : String
  minify : JSValue
  sourcemap : JSValue
  target : Target
  types : Option (List String)
  esbuild : JSObject

/-- The process-wide build state of `state.js`.  `buildCount` is a counter
kept well inside the range where a JavaScript number counts exactly, and clock
readings are whole ticks. -/
structure State where
  config : List BundleConfig
  buildTime : Int
  buildCount : Nat
  files : List String

/-- One call of `esbuild.build` made by `buildSingle`: the options object it
is given, and the `outfile` its completion handler closes over. -/
structure BuildCall where
  options : JSObject
  outfile : String

/-! ## Expansion of the configurations into bundler calls -/

/-- The method `String.prototype.endsWith`. -/
def endsWith (s suffix : String) : Bool :=
  suffix.data.isSuffixOf s.data

/-- The `fileExt` of `buildSingle`:
`conf.source && conf.source.endsWith('.css') ? 'css' : 'js'`. -/
def fileExt (conf : BundleConfig) : String :=
  match conf.source with
  | some s => if s ≠ "" ∧ endsWith s ".css" = true then "css" else "js"
  | none => "js"

/-- The file name given to `path.join` in `buildSingle`: the template
`conf.name`, `pkgType`, a dot, `fileExt`. -/
def outName (conf : BundleConfig) (pkgType : String) : String :=
  conf.name ++ pkgType ++ "." ++ fileExt conf

/-- The value of `conf.source` inside `entryPoints`. -/
def sourceValue (conf : BundleConfig) : JSValue :=
  match conf.source with
  | some s => .str s
  | none => .undefined

/-- The options `buildSingle` computes, before the `...conf.esbuild` spread. -/
def computedOptions (conf : BundleConfig) (outfile : String) : JSObject :=
  [ ("entryPoints", .arr [sourceValue conf]),
    ("outfile", .str outfile),
    ("bundle", .bool true),
    ("platform", conf.platform),
    ("globalName", if conf.globalName.length ≠ 0 then .str conf.globalName else .undefined),
    ("minify", conf.minify),
    ("sourcemap", conf.sourcemap),
    ("target", if conf.target.length ≠ 0 then conf.target.toJS else .undefined),
    ("logLevel", .str "error") ]

/-- The synchronous part of `buildSingle`: the call of `esbuild.build`. -/
def buildSingle (conf : BundleConfig) (pkgType : String := "") : BuildCall :=
  let outfile := pathJoin conf.outputDir (outName conf pkgType)
  { options := computedOptions conf outfile ++ conf.esbuild, outfile := outfile }

/-- The tasks of one configuration: the body of the reducer in `buildBundles`. -/
def bundlesOf (conf : BundleConfig) : List BuildCall :=
  match conf.types with
  | some (t :: ts) =>
    (t :: ts).mapIdx (fun index pkgType =>
      buildSingle conf (if index = 0 then "" else "." ++ pkgType))
  | _ => [buildSingle conf]

/-- The expansion `buildBundles`: a left fold over `state.config`. -/
def buildBundles (config : List BundleConfig) : List BuildCall :=
  config.foldl (fun res conf => res ++ bundlesOf conf) []

/-! ## Collaborators: state operations, notifier, clock -/

/-- Modelled from the spec: `state.resetBuild` of `state.js`, which is not part
of the sources at hand.  It clears the list of output files accumulated by the
previous pass and leaves the other fields alone. -/
def State.resetBuild (state : State) : State :=
  { state with files := [] }

/-- Modelled from the spec: `state.addFile` of `state.js`, which is not part of
the sources at hand.  It appends one output path to the list of output files. -/
def State.addFile (state : State) (file : String) : State :=
  { state with files := state.files ++ [file] }

/-- A signal received by the notifier. -/
inductive Signal where
  | building
  | built
  | warnings (list : List JSValue)

/-- Everything a pass can change outside itself: the state singleton, the
signals the notifier has received so far, and how many times the clock has
been read. -/
structure World where
  state : State
  signals : List Signal
  reads : Nat

/-- Modelled from the spec: the notifier `message.js`, which is not part of the
sources at hand.  A call records its signal and has no effect on control
flow. -/
def World.notify (w : World) (signal : Signal) : World :=
  { w with signals := w.signals ++ [signal] }

/-- The call `performance.now()`: the next reading of the clock, where `clock k` is
what the k-th reading returns. -/
def World.now (clock : Nat → Int) (w : World) : Int × World :=
  (clock w.reads, { w with reads := w.reads + 1 })

/-! ## The build pass -/

/-- The state of the promise returned by one `buildSingle` call. -/
inductive Settlement where
  | pending
  | fulfilled (result : JSValue)
  | rejected (reason : JSValue)

/-- The state of the promise returned by `runBuild`. -/
inductive Completion where
  | pending
  | fulfilled (warnings : List JSValue)
  | rejected (reason : JSValue)

/-- A bundler promise settles: task `task` (position in launch order) resolves
with a result (`Except.ok`) or rejects with a reason (`Except.error`). -/
structure Event where
  task : Nat
  outcome : Except JSValue JSValue

/-- A build pass in flight. -/
structure Pass where
  world : World
  buildStart : Int
  bundles : List BuildCall
  settled : List Settlement
  promise : Completion

/-- The values `Promise.all` resolves with: the results of the tasks by
position, once every one of them is fulfilled. -/
def allFulfilled : List Settlement → Option (List JSValue)
  | [] => some []
  | .fulfilled result :: rest =>
    match allFulfilled rest with
    | some results => some (result :: results)
    | none => none
  | _ :: _ => none

/-- The handler given to `Promise.all(bundles).then` in `runBuild`. -/
def onAllBuilt (clock : Nat → Int) (p : Pass) (warnings : List JSValue) : Pass :=
  let (t, w) := p.world.now clock
  let w := { w with state := { w.state with buildTime := t - p.buildStart } }
  let w := { w with state := { w.state with buildCount := w.state.buildCount + 1 } }
  let w := w.notify .built
  let w := w.notify (.warnings warnings)
  { p with world := w, promise := .fulfilled warnings }

/-- The join `Promise.all(bundles)`: once every task is fulfilled, and unless the
joined promise is settled already, the handler runs with the results. -/
def promiseAll (clock : Nat → Int) (p : Pass) : Pass :=
  match p.promise, allFulfilled p.settled with
  | .pending, some warnings => onAllBuilt clock p warnings
  | _, _ => p

/-- The synchronous part of `runBuild`: notify, reset, read the clock, launch
every bundle.  With no bundle at all the join resolves at once. -/
def start (clock : Nat → Int) (w : World) : Pass :=
  let w := w.notify .building
  let w := { w with state := w.state.resetBuild }
  let (buildStart, w) := w.now clock
  let bundles := buildBundles w.state.config
  promiseAll clock
    { world := w, buildStart := buildStart, bundles := bundles,
      settled := bundles.map (fun _ => Settlement.pending), promise := .pending }

/-- One bundler promise settles.  A promise settles once, so an event for a
task that is settled already, or for no task, changes nothing.  On success the
handler of `buildSingle` runs (`state.addFile(outfile)`, then the result is
passed on) and the join is re-examined; on failure the rejection passes
through to the join, which rejects unless it is settled already. -/
def settle (clock : Nat → Int) (p : Pass) (ev : Event) : Pass :=
  match p.bundles[ev.task]?, p.settled[ev.task]? with
  | some call, some .pending =>
    match ev.outcome with
    | .ok result =>
      promiseAll clock
        { p with
          world := { p.world with state := p.world.state.addFile call.outfile },
          settled := p.settled.set ev.task (.fulfilled result) }
    | .error reason =>
      { p with
        settled := p.settled.set ev.task (.rejected reason),
        promise :=
          match p.promise with
          | .pending => .rejected reason
          | other => other }
  | _, _ => p

/-- The default export `runBuild`, followed up to the point where the given
bundler promises have settled, in the given order. -/
def runBuild (clock : Nat → Int) (w : World) (events : List Event) : Pass :=
  events.foldl (settle clock) (start clock w)

/-! ## Descriptions of passes, used to state and prove the properties -/


/-- The `outfile` of the task at a position of the expansion. -/
def outfileAt (bundles : List BuildCall) (task : Nat) : String :=
  match bundles[task]? with
  | some call => call.outfile
  | none => ""

/-- The event in which task `task` succeeds with the result `result task`. -/
def succeeds (result : Nat → JSValue) (task : Nat) : Event :=
  ⟨task, Except.ok (result task)⟩

/-- The pass once `runBuild` has launched the bundles and the tasks listed in
`done` have succeeded, in that order, while the join has not been examined
since. -/
def midPass (clock : Nat → Int) (w : World) (result : Nat → JSValue) (done : List Nat) : Pass :=
  { world :=
      { state := { w.state with files := done.map (outfileAt (buildBundles w.state.config)) },
        signals := w.signals ++ [Signal.building],
        reads := w.reads + 1 },
    buildStart := clock w.reads,
    bundles := buildBundles w.state.config,
    settled := (List.range (buildBundles w.state.config).length).map (fun task =>
      if task ∈ done then Settlement.fulfilled (result task) else Settlement.pending),
    promise := Completion.pending }

/-- What a step may change while the join cannot fire: only the list of
output files, and that only by growing. -/
def Frame (p q : Pass) : Prop :=
  q.promise = p.promise ∧ q.bundles = p.bundles ∧ q.buildStart = p.buildStart ∧
    q.world.signals = p.world.signals ∧ q.world.reads = p.world.reads ∧
    q.world.state.buildCount = p.world.state.buildCount ∧
    q.world.state.buildTime = p.world.state.buildTime ∧
    q.world.state.config = p.world.state.config ∧
    p.world.state.files <+: q.world.state.files

/-! ## Example configurations -/


/-- A library built in two flavours: `types: ['cjs', 'esm']`. -/
def dualConf : BundleConfig :=
  { name := "lib", source := some "src/index.js", outputDir := "dist",
    platform := .str "node", globalName := "", minify := .bool false,
    sourcemap := .bool true, target := .list [], types := some ["cjs", "esm"],
    esbuild := [] }

/-- Scenario A: `name: 'a', source: 'a.js', outputDir: '/out', types: []`. -/
def scenarioA : BundleConfig :=
  { name := "a", source := some "a.js", outputDir := "/out",
    platform := .str "browser", globalName := "", minify := .bool true,
    sourcemap := .bool false, target := .str "", types := some [],
    esbuild := [] }

/-- Scenario B: `name: 'b', source: 'b.css', outputDir: '/out'`, no `types`. -/
def scenarioB : BundleConfig :=
  { name := "b", source := some "b.css", outputDir := "/out",
    platform := .str "browser", globalName := "", minify := .bool true,
    sourcemap := .bool false, target := .str "", types := none,
    esbuild := [] }

/-- A configuration whose `esbuild` mapping overrides a computed option
(`bundle`), adds one that is not computed (`format`) and sets `globalName`,
while its own `globalName` is empty. -/
def overrideConf : BundleConfig :=
  { name := "app", source := some "app.js", outputDir := "dist",
    platform := .str "browser", globalName := "", minify := .bool true,
    sourcemap := .bool false, target := .list ["es2017"], types := none,
    esbuild := [("bundle", .bool false), ("format", .str "iife"),
      ("globalName", .str "App")] }

/-- A clock that advances by one tick per reading. -/
def tick : Nat → Int := fun k => k

/-- A process that has built seven times already and is about to build the
two-flavour library and the style sheet of scenario B: three tasks. -/
def exampleWorld : World :=
  { state :=
      { config := [dualConf, scenarioB],
        buildTime := 120,
        buildCount := 7,
        files := ["dist/stale.js"] },
    signals := [],
    reads := 0 }

/-- The reason a bundler call rejects with: an error with a message. -/
def exampleFailure : JSValue :=
  JSValue.obj [("message", JSValue.str "Build failed with 1 error")]

/-- A bundler result without warnings, tagged with the number of its task. -/
def exampleResult (task : Nat) : JSValue :=
  JSValue.obj [("warnings", JSValue.arr []), ("task", JSValue.num task)]

/-! ## Lemmas on objects and on the expansion -/

theorem getProp_cons (k : String) (v : JSValue) (rest : JSObject) (key : String) :
    getProp ((k, v) :: rest) key =
      match getProp rest key with
      | some w => some w
      | none => if k = key then some v else none := rfl

theorem getProp_append_some (o extra : JSObject) (key : String) (v : JSValue)
    (h : getProp extra key = some v) : getProp (o ++ extra) key = some v := by
  induction o with
  | nil => simpa using h
  | cons kv rest ih =>
    obtain ⟨k, w⟩ := kv
    rw [List.cons_append, getProp_cons, ih]

theorem getProp_append_none (o extra : JSObject) (key : String)
    (h : getProp extra key = none) : getProp (o ++ extra) key = getProp o key := by
  induction o with
  | nil => simpa [getProp] using h
  | cons kv rest ih =>
    obtain ⟨k, w⟩ := kv
    rw [List.cons_append, getProp_cons, getProp_cons, ih]

theorem foldl_bundles (acc : List BuildCall) (config : List BundleConfig) :
    config.foldl (fun res conf => res ++ bundlesOf conf) acc = acc ++ buildBundles config := by
  induction config generalizing acc with
  | nil => simp [buildBundles]
  | cons conf rest ih =>
    simp only [buildBundles, List.foldl_cons, List.nil_append]
    rw [ih, ih (bundlesOf conf), List.append_assoc]

theorem buildBundles_nil : buildBundles [] = [] := rfl

theorem buildBundles_cons (conf : BundleConfig) (rest : List BundleConfig) :
    buildBundles (conf :: rest) = bundlesOf conf ++ buildBundles rest := by
  simp only [buildBundles, List.foldl_cons, List.nil_append]
  exact foldl_bundles _ _

theorem buildBundles_append (front back : List BundleConfig) :
    buildBundles (front ++ back) = buildBundles front ++ buildBundles back := by
  induction front with
  | nil => simp [buildBundles_nil]
  | cons conf rest ih => simp [buildBundles_cons, ih]

theorem bundlesOf_types (conf : BundleConfig) (types : List String)
    (htypes : conf.types = some types) (hne : types ≠ []) :
    bundlesOf conf = types.mapIdx (fun index pkgType =>
      buildSingle conf (if index = 0 then "" else "." ++ pkgType)) := by
  cases types with
  | nil => exact absurd rfl hne
  | cons t ts => simp only [bundlesOf, htypes]

theorem bundlesOf_no_types (conf : BundleConfig)
    (h : conf.types = none ∨ conf.types = some []) : bundlesOf conf = [buildSingle conf ""] := by
  rcases h with h | h <;> simp only [bundlesOf, h]

theorem outName_empty (conf : BundleConfig) :
    outName conf "" = conf.name ++ "." ++ fileExt conf := by
  simp [outName]

theorem outName_dot (conf : BundleConfig) (t : String) :
    outName conf ("." ++ t) = conf.name ++ "." ++ t ++ "." ++ fileExt conf := by
  simp [outName, String.append_assoc]

/-- C1: a configuration whose `types` list is non-empty contributes, at its
place in the expansion, exactly one task per entry of `types`, in `types`
order.  The task of entry 0 is `buildSingle` with the empty suffix and writes
`<name>.<ext>`; the task of an entry at index i > 0 is `buildSingle` with the
suffix `.<types[i]>` and writes `<name>.<types[i]>.<ext>`.  The output path is
`path.join` of `outputDir` and that file name. -/
theorem buildBundles_types_expansion (front back : List BundleConfig) (conf : BundleConfig)
    (types : List String) (htypes : conf.types = some types) (hne : types ≠ []) :
    buildBundles (front ++ conf :: back)
        = buildBundles front ++ bundlesOf conf ++ buildBundles back ∧
      (bundlesOf conf).length = types.length ∧
      ∀ (i : Nat) (hi : i < types.length),
        (bundlesOf conf)[i]? = some (buildSingle conf (if i = 0 then "" else "." ++ types[i])) ∧
        ((bundlesOf conf)[i]?).map BuildCall.outfile =
          some (pathJoin conf.outputDir
            (if i = 0 then conf.name ++ "." ++ fileExt conf
             else conf.name ++ "." ++ types[i] ++ "." ++ fileExt conf)) := by
  have hb := bundlesOf_types conf types htypes hne
  refine ⟨?_, ?_, ?_⟩
  · rw [buildBundles_append, buildBundles_cons, List.append_assoc]
  · rw [hb, List.length_mapIdx]
  · intro i hi
    have hlen : i < (bundlesOf conf).length := by rw [hb, List.length_mapIdx]; exact hi
    have hget : (bundlesOf conf)[i]? =
        some (buildSingle conf (if i = 0 then "" else "." ++ types[i])) := by
      rw [List.getElem?_eq_getElem hlen]
      congr 1
      simp only [hb, List.getElem_mapIdx]
    refine ⟨hget, ?_⟩
    rw [hget]
    by_cases h0 : i = 0
    · simp only [h0, if_true, Option.map_some', buildSingle, outName_empty]
    · simp only [h0, if_false, Option.map_some', buildSingle, outName_dot]

theorem buildBundles_map_single (config : List BundleConfig)
    (hno : ∀ conf ∈ config, conf.types = none ∨ conf.types = some []) :
    buildBundles config = config.map (fun conf => buildSingle conf "") := by
  induction config with
  | nil => rfl
  | cons conf rest ih =>
    rw [buildBundles_cons, bundlesOf_no_types conf (hno conf (List.mem_cons_self _ _)),
      ih (fun c hc => hno c (List.mem_cons_of_mem _ hc))]
    rfl

theorem endsWith_iff (s suffix : String) :
    endsWith s suffix = true ↔ ∃ stem : String, s = stem ++ suffix := by
  unfold endsWith
  rw [List.isSuffixOf_iff_suffix]
  constructor
  · rintro ⟨t, ht⟩
    exact ⟨String.mk t, String.ext (by simpa using ht.symm)⟩
  · rintro ⟨stem, rfl⟩
    exact ⟨stem.data, by simp⟩

theorem fileExt_css (conf : BundleConfig) (h : ∃ stem : String, conf.source = some (stem ++ ".css")) :
    fileExt conf = "css" := by
  obtain ⟨stem, hs⟩ := h
  have hne : stem ++ ".css" ≠ "" := by
    intro hc
    have hlen := congrArg String.length hc
    rw [String.length_append] at hlen
    have h4 : ".css".length = 4 := by decide
    have h0 : "".length = 0 := by decide
    omega
  have hend : endsWith (stem ++ ".css") ".css" = true := (endsWith_iff _ _).2 ⟨stem, rfl⟩
  simp only [fileExt, hs, hend, and_true, if_pos hne]

theorem fileExt_js (conf : BundleConfig) (h : ¬ ∃ stem : String, conf.source = some (stem ++ ".css")) :
    fileExt conf = "js" := by
  unfold fileExt
  cases hs : conf.source with
  | none => rfl
  | some s =>
    have : ¬ (s ≠ "" ∧ endsWith s ".css" = true) := by
      rintro ⟨-, hend⟩
      obtain ⟨stem, rfl⟩ := (endsWith_iff _ _).1 hend
      exact h ⟨stem, hs⟩
    simp only [if_neg this]

/-- C2: when no configuration of a non-empty list has a non-empty `types`, there
are as many tasks as configurations, and task i is `buildSingle` of
configuration i with the empty suffix, writing `<name>.<ext>`; the list that
holds scenario A alone gives the single output path `/out/a.js`. -/
theorem buildBundles_without_types (config : List BundleConfig) (hne : config ≠ [])
    (hno : ∀ conf ∈ config, conf.types = none ∨ conf.types = some []) :
    (buildBundles config).length = config.length ∧
      0 < (buildBundles config).length ∧
      (∀ (i : Nat) (hi : i < config.length),
        (buildBundles config)[i]? = some (buildSingle config[i] "") ∧
        ((buildBundles config)[i]?).map BuildCall.outfile =
          some (pathJoin config[i].outputDir (config[i].name ++ "." ++ fileExt config[i]))) ∧
      (∀ a : BundleConfig, config = [a] → a.name = "a" → a.source = some "a.js" →
        a.outputDir = "/out" →
        (buildBundles config).map BuildCall.outfile = ["/out/a.js"]) := by
  have hmap := buildBundles_map_single config hno
  have hlen : (buildBundles config).length = config.length := by rw [hmap, List.length_map]
  refine ⟨hlen, ?_, ?_, ?_⟩
  · rw [hlen]
    exact List.length_pos.2 hne
  · intro i hi
    have hget : (buildBundles config)[i]? = some (buildSingle config[i] "") := by
      rw [hmap, List.getElem?_map, List.getElem?_eq_getElem hi]
      rfl
    refine ⟨hget, ?_⟩
    rw [hget]
    simp only [Option.map_some', buildSingle, outName_empty]
  · intro a ha hname hsource hdir
    subst ha
    rw [hmap]
    have hext : fileExt a = "js" := by
      simp only [fileExt, hsource]
      decide
    simp only [List.map_cons, List.map_nil, buildSingle, outName_empty, hname, hdir, hext]
    decide

/-- C3: for every configuration and every suffix the extension is `css` when
`source` ends in `.css` and `js` otherwise, a missing source included; it
depends on `source` alone; scenario B gives the output path `/out/b.css`. -/
theorem buildSingle_extension (conf : BundleConfig) (pkgType : String) :
    ((∃ stem : String, conf.source = some (stem ++ ".css")) →
        fileExt conf = "css" ∧
        (buildSingle conf pkgType).outfile =
          pathJoin conf.outputDir (conf.name ++ pkgType ++ "." ++ "css")) ∧
      ((¬ ∃ stem : String, conf.source = some (stem ++ ".css")) →
        fileExt conf = "js" ∧
        (buildSingle conf pkgType).outfile =
          pathJoin conf.outputDir (conf.name ++ pkgType ++ "." ++ "js")) ∧
      (∀ other : BundleConfig, other.source = conf.source → fileExt other = fileExt conf) ∧
      (conf.name = "b" → conf.source = some "b.css" → conf.outputDir = "/out" →
        (buildSingle conf).outfile = "/out/b.css") := by
  refine ⟨?_, ?_, ?_, ?_⟩
  · intro h
    have hext := fileExt_css conf h
    exact ⟨hext, by simp only [buildSingle, outName, hext]⟩
  · intro h
    have hext := fileExt_js conf h
    exact ⟨hext, by simp only [buildSingle, outName, hext]⟩
  · intro other h
    simp only [fileExt, h]
  · intro hname hsource hdir
    have hext : fileExt conf = "css" := fileExt_css conf ⟨"b", hsource⟩
    simp only [buildSingle, outName, hname, hdir, hext]
    decide

/-- C4: for every key, if the `esbuild` mapping defines it, the options passed
to the bundler hold the value the mapping gives it; if the mapping does not,
they hold what the computed options hold, which is nothing for a key that is
not computed. -/
theorem buildSingle_override_wins (conf : BundleConfig) (pkgType : String) (key : String) :
    (∀ value : JSValue, getProp conf.esbuild key = some value →
        getProp (buildSingle conf pkgType).options key = some value) ∧
      (getProp conf.esbuild key = none →
        getProp (buildSingle conf pkgType).options key =
          getProp (computedOptions conf (buildSingle conf pkgType).outfile) key) := by
  constructor
  · intro value h
    exact getProp_append_some _ _ _ _ h
  · intro h
    exact getProp_append_none _ _ _ h

/-- C5 (as amended): for a configuration with an empty `globalName` and no
`globalName` key in its `esbuild` mapping, the options passed to the bundler
have the key `globalName`, and its value is `undefined`. -/
theorem buildSingle_globalName_empty (conf : BundleConfig) (pkgType : String)
    (hempty : conf.globalName = "") (hno : getProp conf.esbuild "globalName" = none) :
    getProp (buildSingle conf pkgType).options "globalName" = some JSValue.undefined ∧
      hasProp (buildSingle conf pkgType).options "globalName" = true := by
  have h : getProp (buildSingle conf pkgType).options "globalName" = some JSValue.undefined := by
    simp only [buildSingle]
    rw [getProp_append_none _ _ _ hno]
    simp [computedOptions, getProp, hempty]
  exact ⟨h, by simp [hasProp, h]⟩

/-- C1 at `types: ['cjs', 'esm']`: two tasks, `lib.js` and `lib.esm.js`. -/
theorem buildBundles_types_expansion_witness :
    dualConf.types = some ["cjs", "esm"] ∧ ["cjs", "esm"] ≠ [] ∧
      (bundlesOf dualConf).length = 2 ∧
      ((bundlesOf dualConf)[0]?).map BuildCall.outfile = some "dist/lib.js" ∧
      ((bundlesOf dualConf)[1]?).map BuildCall.outfile = some "dist/lib.esm.js" :=
  ⟨rfl, by decide,
    (buildBundles_types_expansion [scenarioA] [scenarioB] dualConf ["cjs", "esm"] rfl
      (by decide)).2.1,
    ((buildBundles_types_expansion [scenarioA] [scenarioB] dualConf ["cjs", "esm"] rfl
      (by decide)).2.2 0 (by decide)).2,
    ((buildBundles_types_expansion [scenarioA] [scenarioB] dualConf ["cjs", "esm"] rfl
      (by decide)).2.2 1 (by decide)).2⟩

/-- C2 at scenarios A and B together, and at scenario A alone. -/
theorem buildBundles_without_types_witness :
    [scenarioA, scenarioB] ≠ [] ∧
      (∀ conf ∈ [scenarioA, scenarioB], conf.types = none ∨ conf.types = some []) ∧
      (buildBundles [scenarioA, scenarioB]).length = 2 ∧
      (buildBundles [scenarioA]).length = 1 ∧
      (buildBundles [scenarioA]).map BuildCall.outfile = ["/out/a.js"] :=
  have hno : ∀ conf ∈ [scenarioA, scenarioB], conf.types = none ∨ conf.types = some [] := by
    intro conf h
    simp only [List.mem_cons, List.mem_singleton, List.not_mem_nil, or_false] at h
    rcases h with rfl | rfl
    · exact Or.inr rfl
    · exact Or.inl rfl
  have hnoA : ∀ conf ∈ [scenarioA], conf.types = none ∨ conf.types = some [] := by
    intro conf h
    simp only [List.mem_singleton] at h
    exact Or.inr (h ▸ rfl)
  ⟨List.cons_ne_nil _ _, hno,
    (buildBundles_without_types [scenarioA, scenarioB] (List.cons_ne_nil _ _) hno).1,
    (buildBundles_without_types [scenarioA] (List.cons_ne_nil _ _) hnoA).1,
    (buildBundles_without_types [scenarioA] (List.cons_ne_nil _ _) hnoA).2.2.2
      scenarioA rfl rfl rfl rfl⟩

/-- C3 at scenario B (a style sheet) and at scenario A (a script). -/
theorem buildSingle_extension_witness :
    (∃ stem : String, scenarioB.source = some (stem ++ ".css")) ∧
      fileExt scenarioB = "css" ∧ (buildSingle scenarioB).outfile = "/out/b.css" ∧
      (¬ ∃ stem : String, scenarioA.source = some (stem ++ ".css")) ∧
      fileExt scenarioA = "js" :=
  have hjs : ¬ ∃ stem : String, scenarioA.source = some (stem ++ ".css") := by
    rintro ⟨stem, h⟩
    have hend : endsWith "a.js" ".css" = true :=
      (endsWith_iff "a.js" ".css").2 ⟨stem, Option.some.inj h⟩
    exact absurd hend (by decide)
  ⟨⟨"b", rfl⟩, ((buildSingle_extension scenarioB "").1 ⟨"b", rfl⟩).1,
    (buildSingle_extension scenarioB "").2.2.2 rfl rfl rfl, hjs,
    ((buildSingle_extension scenarioA "").2.1 hjs).1⟩

/-- C4 at a mapping that overrides `bundle` and leaves `logLevel` alone. -/
theorem buildSingle_override_wins_witness :
    getProp overrideConf.esbuild "bundle" = some (JSValue.bool false) ∧
      getProp (buildSingle overrideConf).options "bundle" = some (JSValue.bool false) ∧
      getProp overrideConf.esbuild "logLevel" = none ∧
      getProp (buildSingle overrideConf).options "logLevel" = some (JSValue.str "error") :=
  ⟨rfl, (buildSingle_override_wins overrideConf "" "bundle").1 _ rfl, rfl,
    (buildSingle_override_wins overrideConf "" "logLevel").2 rfl⟩

/-- C5 (as amended) at scenario A. -/
theorem buildSingle_globalName_empty_witness :
    scenarioA.globalName = "" ∧ getProp scenarioA.esbuild "globalName" = none ∧
      getProp (buildSingle scenarioA).options "globalName" = some JSValue.undefined :=
  ⟨rfl, rfl, (buildSingle_globalName_empty scenarioA "" rfl rfl).1⟩

/-- C5 (counterexample): with an empty `globalName` the options still have the
key `globalName`, and an `esbuild` mapping that defines `globalName` gets its
value passed. -/
theorem buildSingle_globalName_present :
    scenarioA.globalName = "" ∧
      hasProp (buildSingle scenarioA).options "globalName" = true ∧
      overrideConf.globalName = "" ∧
      getProp (buildSingle overrideConf).options "globalName" = some (JSValue.str "App") :=
  ⟨rfl, rfl, rfl, rfl⟩

/-! ## Lemmas on the build pass -/

theorem allFulfilled_eq_none_of_getElem? (l : List Settlement) (t : Nat)
    (h : l[t]? = some Settlement.pending ∨ ∃ reason, l[t]? = some (Settlement.rejected reason)) :
    allFulfilled l = none := by
  induction l generalizing t with
  | nil => rcases h with h | ⟨_, h⟩ <;> simp at h
  | cons s rest ih =>
    cases t with
    | zero =>
      rcases h with h | ⟨_, h⟩ <;>
        · simp only [List.getElem?_cons_zero, Option.some.injEq] at h
          subst h
          rfl
    | succ t =>
      have hrest : allFulfilled rest = none := by
        apply ih t
        simpa using h
      cases s <;> simp [allFulfilled, hrest]

theorem promiseAll_of_none (clock : Nat → Int) (p : Pass) (h : allFulfilled p.settled = none) :
    promiseAll clock p = p := by
  unfold promiseAll
  rw [h]
  cases p.promise <;> rfl

theorem promiseAll_of_rejected (clock : Nat → Int) (p : Pass) (reason : JSValue)
    (h : p.promise = Completion.rejected reason) : promiseAll clock p = p := by
  unfold promiseAll
  rw [h]

theorem promiseAll_of_some (clock : Nat → Int) (p : Pass) (warnings : List JSValue)
    (hp : p.promise = Completion.pending) (h : allFulfilled p.settled = some warnings) :
    promiseAll clock p = onAllBuilt clock p warnings := by
  unfold promiseAll
  rw [hp, h]

theorem settle_ok (clock : Nat → Int) (p : Pass) (task : Nat) (result : JSValue)
    (call : BuildCall) (hcall : p.bundles[task]? = some call)
    (hpending : p.settled[task]? = some Settlement.pending) :
    settle clock p ⟨task, Except.ok result⟩ =
      promiseAll clock
        { p with
          world := { p.world with state := p.world.state.addFile call.outfile },
          settled := p.settled.set task (Settlement.fulfilled result) } := by
  simp only [settle, hcall, hpending]

theorem settle_error (clock : Nat → Int) (p : Pass) (task : Nat) (reason : JSValue)
    (call : BuildCall) (hcall : p.bundles[task]? = some call)
    (hpending : p.settled[task]? = some Settlement.pending)
    (hp : p.promise = Completion.pending) :
    settle clock p ⟨task, Except.error reason⟩ =
      { p with
        settled := p.settled.set task (Settlement.rejected reason),
        promise := Completion.rejected reason } := by
  simp only [settle, hcall, hpending, hp]

theorem Frame.refl (p : Pass) : Frame p p :=
  ⟨rfl, rfl, rfl, rfl, rfl, rfl, rfl, rfl, List.prefix_refl _⟩

theorem Frame.trans {p q r : Pass} (h1 : Frame p q) (h2 : Frame q r) : Frame p r := by
  obtain ⟨a1, a2, a3, a4, a5, a6, a7, a8, a9⟩ := h1
  obtain ⟨b1, b2, b3, b4, b5, b6, b7, b8, b9⟩ := h2
  exact ⟨b1.trans a1, b2.trans a2, b3.trans a3, b4.trans a4, b5.trans a5, b6.trans a6,
    b7.trans a7, b8.trans a8, a9.trans b9⟩

theorem settle_frame_of_rejected (clock : Nat → Int) (p : Pass) (ev : Event) (reason : JSValue)
    (h : p.promise = Completion.rejected reason) : Frame p (settle clock p ev) := by
  unfold settle
  split
  · rename_i call _ _
    cases hev : ev.outcome with
    | ok result =>
      simp only []
      have hq := promiseAll_of_rejected clock
        { p with
          world := { p.world with state := p.world.state.addFile call.outfile },
          settled := p.settled.set ev.task (Settlement.fulfilled result) } reason h
      rw [hq]
      exact ⟨rfl, rfl, rfl, rfl, rfl, rfl, rfl, rfl, List.prefix_append _ _⟩
    | error other =>
      simp only [h]
      exact ⟨h.symm, rfl, rfl, rfl, rfl, rfl, rfl, rfl, List.prefix_refl _⟩
  · exact Frame.refl p

theorem foldl_settle_frame_of_rejected (clock : Nat → Int) (events : List Event) (p : Pass)
    (reason : JSValue) (h : p.promise = Completion.rejected reason) :
    Frame p (events.foldl (settle clock) p) := by
  induction events generalizing p with
  | nil => exact Frame.refl p
  | cons ev rest ih =>
    have hstep := settle_frame_of_rejected clock p ev reason h
    exact hstep.trans (ih _ (hstep.1.trans h))

theorem settle_getElem?_of_rejected (clock : Nat → Int) (p : Pass) (ev : Event)
    (reason : JSValue) (other : Nat) (h : p.promise = Completion.rejected reason)
    (hne : ev.task ≠ other) : (settle clock p ev).settled[other]? = p.settled[other]? := by
  unfold settle
  split
  · rename_i call _ _
    cases hev : ev.outcome with
    | ok result =>
      simp only []
      have hq := promiseAll_of_rejected clock
        { p with
          world := { p.world with state := p.world.state.addFile call.outfile },
          settled := p.settled.set ev.task (Settlement.fulfilled result) } reason h
      rw [hq]
      exact List.getElem?_set_ne hne
    | error failure =>
      simp only []
      exact List.getElem?_set_ne hne
  · rfl

theorem foldl_settle_getElem?_of_rejected (clock : Nat → Int) (events : List Event) (p : Pass)
    (reason : JSValue) (other : Nat) (h : p.promise = Completion.rejected reason)
    (hfresh : other ∉ events.map Event.task) :
    (events.foldl (settle clock) p).settled[other]? = p.settled[other]? := by
  induction events generalizing p with
  | nil => rfl
  | cons ev rest ih =>
    have hne : ev.task ≠ other := by
      intro heq
      exact hfresh (by simp [heq])
    have hrest : other ∉ rest.map Event.task := by
      intro hmem
      exact hfresh (by simp only [List.map_cons, List.mem_cons]; exact Or.inr hmem)
    have hstep := settle_frame_of_rejected clock p ev reason h
    rw [List.foldl_cons, ih _ (hstep.1.trans h) hrest,
      settle_getElem?_of_rejected clock p ev reason other h hne]

theorem settle_ok_of_other_pending (clock : Nat → Int) (p : Pass) (task other : Nat)
    (result : JSValue) (hne : task ≠ other)
    (hother : p.settled[other]? = some Settlement.pending) :
    Frame p (settle clock p ⟨task, Except.ok result⟩) ∧
      (settle clock p ⟨task, Except.ok result⟩).settled[other]? = some Settlement.pending := by
  unfold settle
  split
  · rename_i call _ _
    simp only []
    have hkeep : (p.settled.set task (Settlement.fulfilled result))[other]?
        = some Settlement.pending := by
      rw [List.getElem?_set_ne hne]
      exact hother
    have hq := promiseAll_of_none clock
      { p with
        world := { p.world with state := p.world.state.addFile call.outfile },
        settled := p.settled.set task (Settlement.fulfilled result) }
      (allFulfilled_eq_none_of_getElem? _ other (Or.inl hkeep))
    rw [hq]
    exact ⟨⟨rfl, rfl, rfl, rfl, rfl, rfl, rfl, rfl, List.prefix_append _ _⟩, hkeep⟩
  · exact ⟨Frame.refl p, hother⟩

theorem foldl_settle_ok_of_other_pending (clock : Nat → Int) (earlier : List (Nat × JSValue))
    (p : Pass) (other : Nat) (hfresh : other ∉ earlier.map Prod.fst)
    (hother : p.settled[other]? = some Settlement.pending) :
    Frame p ((earlier.map (fun e => Event.mk e.1 (Except.ok e.2))).foldl (settle clock) p) ∧
      ((earlier.map (fun e => Event.mk e.1 (Except.ok e.2))).foldl (settle clock) p).settled[other]?
        = some Settlement.pending := by
  induction earlier generalizing p with
  | nil => exact ⟨Frame.refl p, hother⟩
  | cons e rest ih =>
    have hne : e.1 ≠ other := by
      intro h
      exact hfresh (by simp [h])
    have hrest : other ∉ rest.map Prod.fst := by
      intro h
      exact hfresh (by simp only [List.map_cons, List.mem_cons]; exact Or.inr h)
    obtain ⟨hframe, hkeep⟩ := settle_ok_of_other_pending clock p e.1 other e.2 hne hother
    obtain ⟨hframe2, hkeep2⟩ := ih _ hrest hkeep
    exact ⟨hframe.trans hframe2, hkeep2⟩

theorem midPass_settled_getElem? (clock : Nat → Int) (w : World) (result : Nat → JSValue)
    (done : List Nat) (task : Nat) (htask : task < (buildBundles w.state.config).length) :
    (midPass clock w result done).settled[task]? =
      some (if task ∈ done then Settlement.fulfilled (result task) else Settlement.pending) := by
  simp [midPass, List.getElem?_map, List.getElem?_range htask]

theorem start_eq (clock : Nat → Int) (w : World) (result : Nat → JSValue) :
    start clock w = promiseAll clock (midPass clock w result []) := by
  have h : (buildBundles w.state.config).map (fun _ => Settlement.pending) =
      (List.range (buildBundles w.state.config).length).map (fun task =>
        if task ∈ ([] : List Nat) then Settlement.fulfilled (result task)
        else Settlement.pending) := by
    apply List.ext_getElem
    · simp
    · intro i h1 h2
      simp
  simp only [start, World.notify, World.now, State.resetBuild, midPass, h, List.map_nil]

theorem promiseAll_midPass_of_missing (clock : Nat → Int) (w : World) (result : Nat → JSValue)
    (done : List Nat) (task : Nat) (htask : task < (buildBundles w.state.config).length)
    (hmiss : task ∉ done) :
    promiseAll clock (midPass clock w result done) = midPass clock w result done := by
  apply promiseAll_of_none
  apply allFulfilled_eq_none_of_getElem? _ task
  left
  rw [midPass_settled_getElem? clock w result done task htask, if_neg hmiss]

theorem allFulfilled_map_of_mem (result : Nat → JSValue) (done tasks : List Nat)
    (h : ∀ task ∈ tasks, task ∈ done) :
    allFulfilled (tasks.map (fun task =>
      if task ∈ done then Settlement.fulfilled (result task) else Settlement.pending))
      = some (tasks.map result) := by
  induction tasks with
  | nil => rfl
  | cons t rest ih =>
    have ht : t ∈ done := h t (List.mem_cons_self _ _)
    have hrest := ih (fun task hmem => h task (List.mem_cons_of_mem _ hmem))
    simp only [List.map_cons, if_pos ht, allFulfilled, hrest]

theorem promiseAll_midPass_of_all (clock : Nat → Int) (w : World) (result : Nat → JSValue)
    (done : List Nat) (hall : ∀ task, task < (buildBundles w.state.config).length → task ∈ done) :
    promiseAll clock (midPass clock w result done) =
      onAllBuilt clock (midPass clock w result done)
        ((List.range (buildBundles w.state.config).length).map result) := by
  apply promiseAll_of_some
  · rfl
  · exact allFulfilled_map_of_mem result done _ (fun task hmem => hall task (List.mem_range.1 hmem))

theorem settle_midPass (clock : Nat → Int) (w : World) (result : Nat → JSValue)
    (done : List Nat) (task : Nat) (htask : task < (buildBundles w.state.config).length)
    (hfresh : task ∉ done) :
    settle clock (midPass clock w result done) (succeeds result task) =
      promiseAll clock (midPass clock w result (done ++ [task])) := by
  have hcall : (midPass clock w result done).bundles[task]?
      = some ((buildBundles w.state.config)[task]) := List.getElem?_eq_getElem htask
  have hpending : (midPass clock w result done).settled[task]? = some Settlement.pending := by
    rw [midPass_settled_getElem? clock w result done task htask, if_neg hfresh]
  unfold succeeds
  rw [settle_ok clock _ task (result task) _ hcall hpending]
  congr 1
  have hset : ((List.range (buildBundles w.state.config).length).map (fun t =>
        if t ∈ done then Settlement.fulfilled (result t) else Settlement.pending)).set task
          (Settlement.fulfilled (result task)) =
      (List.range (buildBundles w.state.config).length).map (fun t =>
        if t ∈ done ++ [task] then Settlement.fulfilled (result t) else Settlement.pending) := by
    apply List.ext_getElem
    · simp
    · intro i h1 h2
      simp only [List.getElem_set, List.getElem_map, List.getElem_range, List.mem_append,
        List.mem_singleton]
      by_cases hi : task = i
      · simp [hi]
      · have hi2 : ¬ i = task := fun h => hi h.symm
        simp [hi, hi2]
  have hfile : outfileAt (buildBundles w.state.config) task
      = ((buildBundles w.state.config)[task]).outfile := by
    simp only [outfileAt, List.getElem?_eq_getElem htask]
  simp only [midPass, State.addFile, hset, List.map_append, List.map_cons, List.map_nil, hfile]

theorem foldl_settle_midPass (clock : Nat → Int) (w : World) (result : Nat → JSValue)
    (rest done : List Nat) (hnodup : (done ++ rest).Nodup)
    (hlt : ∀ task ∈ rest, task < (buildBundles w.state.config).length)
    (hmiss : rest = [] ∨ ∃ task, task < (buildBundles w.state.config).length ∧ task ∉ done) :
    (rest.map (succeeds result)).foldl (settle clock)
        (promiseAll clock (midPass clock w result done)) =
      promiseAll clock (midPass clock w result (done ++ rest)) := by
  induction rest generalizing done with
  | nil => simp
  | cons t rest ih =>
    obtain ⟨k, hk, hkmiss⟩ : ∃ task, task < (buildBundles w.state.config).length ∧ task ∉ done := by
      rcases hmiss with h | h
      · exact absurd h (List.cons_ne_nil _ _)
      · exact h
    have htlt := hlt t (List.mem_cons_self _ _)
    have htfresh : t ∉ done := by
      intro hmem
      have := List.disjoint_of_nodup_append hnodup hmem (List.mem_cons_self _ _)
      exact this
    rw [promiseAll_midPass_of_missing clock w result done k hk hkmiss]
    simp only [List.map_cons, List.foldl_cons]
    rw [settle_midPass clock w result done t htlt htfresh]
    have hnodup2 : ((done ++ [t]) ++ rest).Nodup := by
      simpa [List.append_assoc] using hnodup
    have hstep := ih (done ++ [t]) hnodup2 (fun task hmem => hlt task (List.mem_cons_of_mem _ hmem))
      (by
        cases rest with
        | nil => exact Or.inl rfl
        | cons r rest2 =>
          right
          refine ⟨r, hlt r (by simp), ?_⟩
          intro hmem
          have hd := List.disjoint_of_nodup_append hnodup2 hmem (List.mem_cons_self _ _)
          exact hd)
    rw [hstep]
    simp [List.append_assoc]

theorem runBuild_of_success (clock : Nat → Int) (w : World) (result : Nat → JSValue)
    (order : List Nat) (horder : order.Perm (List.range (buildBundles w.state.config).length)) :
    runBuild clock w (order.map (succeeds result)) =
      onAllBuilt clock (midPass clock w result order)
        ((List.range (buildBundles w.state.config).length).map result) := by
  have hnodup : order.Nodup := horder.nodup_iff.2 (List.nodup_range _)
  have hlt : ∀ task ∈ order, task < (buildBundles w.state.config).length :=
    fun task hmem => List.mem_range.1 (horder.mem_iff.1 hmem)
  have hall : ∀ task, task < (buildBundles w.state.config).length → task ∈ order :=
    fun task h => horder.mem_iff.2 (List.mem_range.2 h)
  unfold runBuild
  rw [start_eq clock w result,
    foldl_settle_midPass clock w result order [] (by simpa using hnodup) hlt
      (by
        cases order with
        | nil => exact Or.inl rfl
        | cons t rest => exact Or.inr ⟨t, hlt t (List.mem_cons_self _ _), by simp⟩)]
  rw [List.nil_append]
  exact promiseAll_midPass_of_all clock w result order hall

theorem length_bundlesOf (conf : BundleConfig) :
    (bundlesOf conf).length =
      match conf.types with
      | some types => if types = [] then 1 else types.length
      | none => 1 := by
  unfold bundlesOf
  cases h : conf.types with
  | none => rfl
  | some types =>
    cases types with
    | nil => rfl
    | cons t ts => simp [List.length_mapIdx]

theorem length_buildBundles (config : List BundleConfig) :
    (buildBundles config).length =
      (config.map (fun conf =>
        match conf.types with
        | some types => if types = [] then 1 else types.length
        | none => 1)).sum := by
  induction config with
  | nil => rfl
  | cons conf rest ih =>
    rw [buildBundles_cons, List.length_append, length_bundlesOf, ih, List.map_cons, List.sum_cons]

theorem map_outfileAt_range (bundles : List BuildCall) :
    (List.range bundles.length).map (outfileAt bundles) = bundles.map BuildCall.outfile := by
  apply List.ext_getElem
  · simp
  · intro i h1 h2
    have hi : i < bundles.length := by simpa using h2
    simp [outfileAt, List.getElem?_eq_getElem hi]

theorem runBuild_until_failure (clock : Nat → Int) (w : World) (earlier : List (Nat × JSValue))
    (task : Nat) (reason : JSValue)
    (htask : task < (buildBundles w.state.config).length)
    (hfresh : task ∉ earlier.map Prod.fst) :
    ∃ p : Pass,
      runBuild clock w (earlier.map (fun e => Event.mk e.1 (Except.ok e.2)) ++
        [Event.mk task (Except.error reason)]) =
        { p with
          settled := p.settled.set task (Settlement.rejected reason),
          promise := Completion.rejected reason } ∧
      Frame (midPass clock w (fun _ => JSValue.undefined) []) p ∧
      ∀ other, other < (buildBundles w.state.config).length → other ∉ earlier.map Prod.fst →
        p.settled[other]? = some Settlement.pending := by
  have hstart : start clock w = midPass clock w (fun _ => JSValue.undefined) [] := by
    rw [start_eq clock w (fun _ => JSValue.undefined)]
    exact promiseAll_midPass_of_missing clock w _ [] task htask (by simp)
  have hpending0 : (midPass clock w (fun _ => JSValue.undefined) []).settled[task]?
      = some Settlement.pending := by
    rw [midPass_settled_getElem? clock w _ [] task htask]
    simp
  obtain ⟨hframe, hpending⟩ := foldl_settle_ok_of_other_pending clock earlier
    (midPass clock w (fun _ => JSValue.undefined) []) task hfresh hpending0
  refine ⟨_, ?_, hframe, ?_⟩
  swap
  · intro other hother hofresh
    refine (foldl_settle_ok_of_other_pending clock earlier
      (midPass clock w (fun _ => JSValue.undefined) []) other hofresh ?_).2
    rw [midPass_settled_getElem? clock w _ [] other hother]
    simp
  unfold runBuild
  rw [List.foldl_append, hstart, List.foldl_cons, List.foldl_nil]
  have hbundles := hframe.2.1
  have hcall : ((earlier.map (fun e => Event.mk e.1 (Except.ok e.2))).foldl (settle clock)
      (midPass clock w (fun _ => JSValue.undefined) [])).bundles[task]?
        = some ((buildBundles w.state.config)[task]) := by
    rw [hbundles]
    exact List.getElem?_eq_getElem htask
  exact settle_error clock _ task reason _ hcall hpending (hframe.1.trans rfl)

/-! ## The build pass: failure -/

/-- C6: when a task's bundler call rejects (the first one to do so), the
promise of `runBuild` rejects with that reason, `buildCount` keeps its value
and the notifier has received nothing after "building". -/
theorem runBuild_rejects (clock : Nat → Int) (w : World) (earlier : List (Nat × JSValue))
    (task : Nat) (reason : JSValue) (later : List Event)
    (htask : task < (buildBundles w.state.config).length)
    (hfresh : task ∉ earlier.map Prod.fst) :
    (runBuild clock w (earlier.map (fun e => Event.mk e.1 (Except.ok e.2)) ++
        Event.mk task (Except.error reason) :: later)).promise = Completion.rejected reason ∧
      (runBuild clock w (earlier.map (fun e => Event.mk e.1 (Except.ok e.2)) ++
        Event.mk task (Except.error reason) :: later)).world.state.buildCount
          = w.state.buildCount ∧
      (runBuild clock w (earlier.map (fun e => Event.mk e.1 (Except.ok e.2)) ++
        Event.mk task (Except.error reason) :: later)).world.signals
          = w.signals ++ [Signal.building] := by
  obtain ⟨p, hrun, hframe, -⟩ := runBuild_until_failure clock w earlier task reason htask hfresh
  have hsplit : earlier.map (fun e => Event.mk e.1 (Except.ok e.2)) ++
      Event.mk task (Except.error reason) :: later =
      (earlier.map (fun e => Event.mk e.1 (Except.ok e.2)) ++
        [Event.mk task (Except.error reason)]) ++ later := by simp
  have hlater := foldl_settle_frame_of_rejected clock later
    { p with
      settled := p.settled.set task (Settlement.rejected reason),
      promise := Completion.rejected reason } reason rfl
  have hfinal : runBuild clock w (earlier.map (fun e => Event.mk e.1 (Except.ok e.2)) ++
      Event.mk task (Except.error reason) :: later) =
      later.foldl (settle clock)
        { p with
          settled := p.settled.set task (Settlement.rejected reason),
          promise := Completion.rejected reason } := by
    rw [hsplit]
    unfold runBuild at hrun ⊢
    rw [List.foldl_append, hrun]
  rw [hfinal]
  obtain ⟨a1, -, -, a4, -, a6, -, -, -⟩ := hlater
  obtain ⟨-, -, -, b4, -, b6, -, -, -⟩ := hframe
  exact ⟨a1, a6.trans b6, a4.trans b4⟩

/-- C10 (as amended): once a task has failed, the rest of the pass changes
neither `buildCount`, `buildTime` or `config` nor what the notifier has
received nor the rejected promise; the list of output files can only grow, and
it does grow: any other task still in flight that succeeds later, whatever
settles in between, appends its output path. -/
theorem runBuild_after_failure (clock : Nat → Int) (w : World) (earlier : List (Nat × JSValue))
    (task : Nat) (reason : JSValue) (later : List Event)
    (htask : task < (buildBundles w.state.config).length)
    (hfresh : task ∉ earlier.map Prod.fst) :
    ((runBuild clock w (earlier.map (fun e => Event.mk e.1 (Except.ok e.2)) ++
          Event.mk task (Except.error reason) :: later)).promise = Completion.rejected reason ∧
        (runBuild clock w (earlier.map (fun e => Event.mk e.1 (Except.ok e.2)) ++
          Event.mk task (Except.error reason) :: later)).world.signals
          = (runBuild clock w (earlier.map (fun e => Event.mk e.1 (Except.ok e.2)) ++
          [Event.mk task (Except.error reason)])).world.signals ∧
        (runBuild clock w (earlier.map (fun e => Event.mk e.1 (Except.ok e.2)) ++
          Event.mk task (Except.error reason) :: later)).world.state.buildCount
          = (runBuild clock w (earlier.map (fun e => Event.mk e.1 (Except.ok e.2)) ++
          [Event.mk task (Except.error reason)])).world.state.buildCount ∧
        (runBuild clock w (earlier.map (fun e => Event.mk e.1 (Except.ok e.2)) ++
          Event.mk task (Except.error reason) :: later)).world.state.buildTime
          = (runBuild clock w (earlier.map (fun e => Event.mk e.1 (Except.ok e.2)) ++
          [Event.mk task (Except.error reason)])).world.state.buildTime ∧
        (runBuild clock w (earlier.map (fun e => Event.mk e.1 (Except.ok e.2)) ++
          Event.mk task (Except.error reason) :: later)).world.state.config
          = (runBuild clock w (earlier.map (fun e => Event.mk e.1 (Except.ok e.2)) ++
          [Event.mk task (Except.error reason)])).world.state.config ∧
        (runBuild clock w (earlier.map (fun e => Event.mk e.1 (Except.ok e.2)) ++
          [Event.mk task (Except.error reason)])).world.state.files
          <+: (runBuild clock w (earlier.map (fun e => Event.mk e.1 (Except.ok e.2)) ++
          Event.mk task (Except.error reason) :: later)).world.state.files) ∧
      ∀ (other : Nat) (result : JSValue), other < (buildBundles w.state.config).length →
        other ≠ task → other ∉ earlier.map Prod.fst → other ∉ later.map Event.task →
        (runBuild clock w (earlier.map (fun e => Event.mk e.1 (Except.ok e.2)) ++
          Event.mk task (Except.error reason) ::
            (later ++ [Event.mk other (Except.ok result)]))).world.state.files
          = (runBuild clock w (earlier.map (fun e => Event.mk e.1 (Except.ok e.2)) ++
          Event.mk task (Except.error reason) :: later)).world.state.files
            ++ [outfileAt (buildBundles w.state.config) other] := by
  obtain ⟨p, hrun, hframe, hpending⟩ :=
    runBuild_until_failure clock w earlier task reason htask hfresh
  have hsplit : ∀ tail : List Event,
      runBuild clock w (earlier.map (fun e => Event.mk e.1 (Except.ok e.2)) ++
        Event.mk task (Except.error reason) :: tail) =
      tail.foldl (settle clock)
        { p with
          settled := p.settled.set task (Settlement.rejected reason),
          promise := Completion.rejected reason } := by
    intro tail
    have happ : earlier.map (fun e => Event.mk e.1 (Except.ok e.2)) ++
        Event.mk task (Except.error reason) :: tail =
        (earlier.map (fun e => Event.mk e.1 (Except.ok e.2)) ++
          [Event.mk task (Except.error reason)]) ++ tail := by simp
    rw [happ]
    unfold runBuild at hrun ⊢
    rw [List.foldl_append (settle clock) _ _ tail, hrun]
  have hlater := foldl_settle_frame_of_rejected clock later
    { p with
      settled := p.settled.set task (Settlement.rejected reason),
      promise := Completion.rejected reason } reason rfl
  constructor
  · rw [hsplit later, hrun]
    obtain ⟨c1, -, -, c4, -, c6, c7, c8, c9⟩ := hlater
    exact ⟨c1, c4, c6, c7, c8, c9⟩
  · intro other result hother hne hofresh hlfresh
    rw [hsplit (later ++ [Event.mk other (Except.ok result)]), hsplit later,
      List.foldl_append, List.foldl_cons, List.foldl_nil]
    obtain ⟨q, hq⟩ : ∃ q, q = later.foldl (settle clock)
      { p with
        settled := p.settled.set task (Settlement.rejected reason),
        promise := Completion.rejected reason } := ⟨_, rfl⟩
    rw [← hq] at hlater ⊢
    have hqp : q.promise = Completion.rejected reason := hlater.1
    have hqcall : q.bundles[other]? = some ((buildBundles w.state.config)[other]) := by
      rw [hlater.2.1]
      show p.bundles[other]? = _
      rw [hframe.2.1]
      exact List.getElem?_eq_getElem hother
    have hqpending : q.settled[other]? = some Settlement.pending := by
      rw [hq, foldl_settle_getElem?_of_rejected clock later _ reason other rfl hlfresh]
      show (p.settled.set task (Settlement.rejected reason))[other]? = _
      rw [List.getElem?_set_ne (fun h => hne h.symm)]
      exact hpending other hother hofresh
    rw [settle_ok clock q other result _ hqcall hqpending]
    have hjoin := promiseAll_of_rejected clock
      { q with
        world := { q.world with
          state := q.world.state.addFile ((buildBundles w.state.config)[other]).outfile },
        settled := q.settled.set other (Settlement.fulfilled result) } reason hqp
    rw [hjoin]
    simp only [State.addFile, outfileAt, List.getElem?_eq_getElem hother]

/-! ## The build pass: success -/

/-- C7: when every task succeeds, the promise of `runBuild` resolves with the
bundler results by position in the expansion, whatever the order of completion. -/
theorem runBuild_resolves_by_position (clock : Nat → Int) (w : World)
    (result : Nat → JSValue) (order : List Nat)
    (horder : order.Perm (List.range (buildBundles w.state.config).length)) :
    (runBuild clock w (order.map (succeeds result))).promise =
        Completion.fulfilled ((List.range (buildBundles w.state.config).length).map result) ∧
      ((List.range (buildBundles w.state.config).length).map result).length
        = (buildBundles w.state.config).length ∧
      (∀ (i : Nat), i < (buildBundles w.state.config).length →
        ((List.range (buildBundles w.state.config).length).map result)[i]? = some (result i)) ∧
      (∀ (first second : BundleConfig) (type0 type1 : String),
        w.state.config = [first, second] → first.types = some [type0, type1] →
        (second.types = none ∨ second.types = some []) →
        buildBundles w.state.config =
          [buildSingle first "", buildSingle first ("." ++ type1), buildSingle second ""]) := by
  refine ⟨?_, by simp, ?_, ?_⟩
  · rw [runBuild_of_success clock w result order horder]
    rfl
  · intro i hi
    simp [List.getElem?_map, List.getElem?_range hi]
  · intro first second type0 type1 hconfig hfirst hsecond
    rw [hconfig, buildBundles_cons, buildBundles_cons, buildBundles_nil,
      bundlesOf_types first [type0, type1] hfirst (List.cons_ne_nil _ _),
      bundlesOf_no_types second hsecond]
    rfl

/-- C8: when no bundler call fails, the pass records as many output files as
there are (configuration, type) pairs, each the `outfile` of one task. -/
theorem runBuild_records_outfiles (clock : Nat → Int) (w : World)
    (result : Nat → JSValue) (order : List Nat)
    (horder : order.Perm (List.range (buildBundles w.state.config).length)) :
    (runBuild clock w (order.map (succeeds result))).world.state.files.length =
        (w.state.config.map (fun conf =>
          match conf.types with
          | some types => if types = [] then 1 else types.length
          | none => 1)).sum ∧
      (runBuild clock w (order.map (succeeds result))).world.state.files =
        order.map (outfileAt (buildBundles w.state.config)) ∧
      ((runBuild clock w (order.map (succeeds result))).world.state.files).Perm
        ((buildBundles w.state.config).map BuildCall.outfile) := by
  have hfiles : (runBuild clock w (order.map (succeeds result))).world.state.files =
      order.map (outfileAt (buildBundles w.state.config)) := by
    rw [runBuild_of_success clock w result order horder]
    rfl
  have hperm : (order.map (outfileAt (buildBundles w.state.config))).Perm
      ((buildBundles w.state.config).map BuildCall.outfile) := by
    rw [← map_outfileAt_range]
    exact horder.map _
  refine ⟨?_, hfiles, hfiles ▸ hperm⟩
  rw [hfiles, List.length_map, horder.length_eq, List.length_range, length_buildBundles]

/-- C9: when every task succeeds, `buildCount` goes up by one, the notifier
receives "building", "built", "warnings" in this order, the last with the
aggregated list, the promise resolves with that list and `config` is as before. -/
theorem runBuild_success (clock : Nat → Int) (w : World)
    (result : Nat → JSValue) (order : List Nat)
    (horder : order.Perm (List.range (buildBundles w.state.config).length)) :
    (runBuild clock w (order.map (succeeds result))).world.state.buildCount
        = w.state.buildCount + 1 ∧
      (runBuild clock w (order.map (succeeds result))).world.signals =
        w.signals ++ [Signal.building, Signal.built,
          Signal.warnings ((List.range (buildBundles w.state.config).length).map result)] ∧
      (runBuild clock w (order.map (succeeds result))).promise =
        Completion.fulfilled ((List.range (buildBundles w.state.config).length).map result) ∧
      (runBuild clock w (order.map (succeeds result))).world.state.config = w.state.config := by
  rw [runBuild_of_success clock w result order horder]
  refine ⟨rfl, ?_, rfl, rfl⟩
  simp [onAllBuilt, midPass, World.notify, World.now]

/-! ## Instances -/

/-- C6 at three tasks: task 2 succeeds, task 1 fails, task 0 succeeds. -/
theorem runBuild_rejects_witness :
    1 < (buildBundles exampleWorld.state.config).length ∧
      1 ∉ [(2, exampleResult 2)].map Prod.fst ∧
      (runBuild tick exampleWorld
        ([(2, exampleResult 2)].map (fun e => Event.mk e.1 (Except.ok e.2)) ++
          Event.mk 1 (Except.error (exampleFailure)) ::
            [Event.mk 0 (Except.ok (exampleResult 0))])).promise
        = Completion.rejected (exampleFailure) ∧
      (runBuild tick exampleWorld
        ([(2, exampleResult 2)].map (fun e => Event.mk e.1 (Except.ok e.2)) ++
          Event.mk 1 (Except.error (exampleFailure)) ::
            [Event.mk 0 (Except.ok (exampleResult 0))])).world.state.buildCount = 7 :=
  ⟨by decide, by decide,
    (runBuild_rejects tick exampleWorld [(2, exampleResult 2)] 1 (exampleFailure)
      [Event.mk 0 (Except.ok (exampleResult 0))] (by decide) (by decide)).1,
    (runBuild_rejects tick exampleWorld [(2, exampleResult 2)] 1 (exampleFailure)
      [Event.mk 0 (Except.ok (exampleResult 0))] (by decide) (by decide)).2.1⟩

/-- C7 at scenario C, the tasks completing in the order 2, 0, 1. -/
theorem runBuild_resolves_by_position_witness :
    [2, 0, 1].Perm (List.range (buildBundles exampleWorld.state.config).length) ∧
      (runBuild tick exampleWorld ([2, 0, 1].map (succeeds exampleResult))).promise =
        Completion.fulfilled [exampleResult 0, exampleResult 1, exampleResult 2] ∧
      buildBundles exampleWorld.state.config =
        [buildSingle dualConf "", buildSingle dualConf ".esm", buildSingle scenarioB ""] :=
  ⟨by decide,
    (runBuild_resolves_by_position tick exampleWorld exampleResult [2, 0, 1] (by decide)).1,
    (runBuild_resolves_by_position tick exampleWorld exampleResult [2, 0, 1]
      (by decide)).2.2.2 dualConf scenarioB "cjs" "esm" rfl rfl (Or.inl rfl)⟩

/-- C8 at scenario C, the tasks completing in the order 1, 2, 0. -/
theorem runBuild_records_outfiles_witness :
    [1, 2, 0].Perm (List.range (buildBundles exampleWorld.state.config).length) ∧
      (runBuild tick exampleWorld ([1, 2, 0].map (succeeds exampleResult))).world.state.files.length
        = 3 ∧
      (runBuild tick exampleWorld ([1, 2, 0].map (succeeds exampleResult))).world.state.files
        = ["dist/lib.esm.js", "/out/b.css", "dist/lib.js"] :=
  ⟨by decide,
    (runBuild_records_outfiles tick exampleWorld exampleResult [1, 2, 0] (by decide)).1,
    (runBuild_records_outfiles tick exampleWorld exampleResult [1, 2, 0] (by decide)).2.1⟩

/-- C9 at scenario C, the tasks completing in the order 0, 2, 1. -/
theorem runBuild_success_witness :
    [0, 2, 1].Perm (List.range (buildBundles exampleWorld.state.config).length) ∧
      (runBuild tick exampleWorld ([0, 2, 1].map (succeeds exampleResult))).world.state.buildCount
        = 8 ∧
      (runBuild tick exampleWorld ([0, 2, 1].map (succeeds exampleResult))).world.signals =
        [Signal.building, Signal.built,
          Signal.warnings [exampleResult 0, exampleResult 1, exampleResult 2]] :=
  ⟨by decide,
    (runBuild_success tick exampleWorld exampleResult [0, 2, 1] (by decide)).1,
    (runBuild_success tick exampleWorld exampleResult [0, 2, 1] (by decide)).2.1⟩

/-- C10 (as amended) at scenario C: task 0 fails, task 1 succeeds, then
task 2 succeeds. -/
theorem runBuild_after_failure_witness :
    0 < (buildBundles exampleWorld.state.config).length ∧
      0 ∉ ([] : List (Nat × JSValue)).map Prod.fst ∧
      (runBuild tick exampleWorld
        [Event.mk 0 (Except.error exampleFailure), Event.mk 1 (Except.ok (exampleResult 1)),
          Event.mk 2 (Except.ok (exampleResult 2))]).world.state.files =
        (runBuild tick exampleWorld
          [Event.mk 0 (Except.error exampleFailure),
            Event.mk 1 (Except.ok (exampleResult 1))]).world.state.files
          ++ ["/out/b.css"] :=
  ⟨by decide, by decide,
    (runBuild_after_failure tick exampleWorld [] 0 exampleFailure
      [Event.mk 1 (Except.ok (exampleResult 1))] (by decide) (by decide)).2
      2 (exampleResult 2) (by decide) (by decide) (by decide) (by decide)⟩

/-- C10 (counterexample): task 0 fails and task 1, still in flight, succeeds
afterwards; its output path is appended to the list of output files all the
same. -/
theorem runBuild_appends_after_failure :
    (runBuild tick exampleWorld [Event.mk 0 (Except.error exampleFailure)]).promise
        = Completion.rejected exampleFailure ∧
      (runBuild tick exampleWorld [Event.mk 0 (Except.error exampleFailure)]).world.state.files
        = [] ∧
      (runBuild tick exampleWorld
        [Event.mk 0 (Except.error exampleFailure), Event.mk 1 (Except.ok (exampleResult 1))]
        ).world.state.files = ["dist/lib.esm.js"] :=
  ⟨rfl, rfl, rfl⟩

end Tauque
